import Mathlib

/-!
# Security-manager team operations of the organizations service

A shallow embedding of `github/orgs_security_managers.go`:
`GetSecurityManagerRole`, `ListSecurityManagerTeams`,
`AddSecurityManagerTeam` and `RemoveSecurityManagerTeam`.

Go pointers are `Option`s (`none` is `nil`), a Go result tuple is a Lean
tuple, a nil-pointer dereference is the outcome `panic`, and the four
collaborators the file calls (`ListRoles`, `ListTeamsAssignedToOrgRole`,
`AssignOrgRoleToTeam`, `RemoveOrgRoleFromTeam`) are fields of a `Client`.
Every call to a collaborator is appended, request and response, to a log.
The `for` loop of `ListSecurityManagerTeams` has no bound in the source; its
embedding takes a number of iterations and reports `running` when they are
used up before the loop has ended.
-/

namespace Github

/-- The custom role record `CustomOrgRoles`: the two fields this file reads,
both pointers in the Go declaration (`*int64`, `*string`). -/
structure CustomOrgRoles where
  ID : Option Int
  Name : Option String
deriving DecidableEq, Repr

/-- The role set `OrganizationCustomRoles` returned by `ListRoles`; its slice
holds pointers to roles (`[]*CustomOrgRoles`). -/
structure OrganizationCustomRoles where
  TotalCount : Option Int
  CustomRepoRoles : List (Option CustomOrgRoles)
deriving DecidableEq, Repr

/-- A team, as far as this file is concerned an uninterpreted record. -/
structure Team where
  ID : Int
  Slug : String
deriving DecidableEq, Repr

/-- The response metadata `Response`: the page cursor this file reads and a
status code standing for the rest of the metadata. -/
structure Response where
  NextPage : Int
  StatusCode : Int
deriving DecidableEq, Repr

/-- The paging options `ListOptions`. -/
structure ListOptions where
  Page : Int
  PerPage : Int
deriving DecidableEq, Repr

/-- An `error` value seen by a caller of this file: either an error handed
back by a collaborator (of type `E`), or the error this file builds itself
with `fmt.Errorf`, which is a fresh value distinct from every collaborator
error. -/
inductive GoError (E : Type) where
  | collaborator (e : E)
  | errorf (msg : String)
deriving DecidableEq, Repr

/-- How a Go function call ends: it returns, it panics, or (for the paging
loop run with a bounded number of iterations) it is still running. -/
inductive Outcome (α : Type) where
  | ret (a : α)
  | panic
  | running
deriving DecidableEq, Repr

/-- Result tuple of `ListRoles`: `(*OrganizationCustomRoles, *Response, error)`. -/
abbrev RolesResult (E : Type) := Option OrganizationCustomRoles × Option Response × Option E

/-- Result tuple of `ListTeamsAssignedToOrgRole`: `([]*Team, *Response, error)`. -/
abbrev TeamsResult (E : Type) := List Team × Option Response × Option E

/-- Result tuple of `AssignOrgRoleToTeam` and `RemoveOrgRoleFromTeam`:
`(*Response, error)`. -/
abbrev MutResult (E : Type) := Option Response × Option E

/-- One exchange with a collaborator: the arguments of the request and the
tuple it answered. -/
inductive Event (E : Type) where
  | listRoles (org : String) (res : RolesResult E)
  | listTeams (org : String) (roleID : Int) (opts : ListOptions) (res : TeamsResult E)
  | assign (org team : String) (roleID : Int) (res : MutResult E)
  | remove (org team : String) (roleID : Int) (res : MutResult E)
deriving DecidableEq, Repr

/-- The collaborators of the service. Each answer may depend on the
arguments of the request and on the number of requests the operation has
issued before it (the first argument), so that a collaborator may answer the
same request differently at different times: the list-roles request of an
operation is request number 0, and its `k`-th later request is number `k`. -/
structure Client (E : Type) where
  ListRoles : Nat → String → RolesResult E
  ListTeamsAssignedToOrgRole : Nat → String → Int → ListOptions → TeamsResult E
  AssignOrgRoleToTeam : Nat → String → String → Int → MutResult E
  RemoveOrgRoleFromTeam : Nat → String → String → Int → MutResult E

/-- Modelled from the spec: the accessor `GetID` of `CustomOrgRoles` is not
among the sources; it gives the role's identifier (an integer), and the zero
value when the receiver or the field is nil. -/
def GetID (c : Option CustomOrgRoles) : Int :=
  match c with
  | none => 0
  | some r => r.ID.getD 0

/-- The message of the error built by `GetSecurityManagerRole`. -/
def notFoundMessage : String := "security manager role not found"

/-- The loop of `GetSecurityManagerRole` (lines 19-25): range over the role
pointers, dereference each role's name, return the first role whose name is
`"security_manager"`, and build the not-found error after the loop. -/
def scanRoles {E : Type} :
    List (Option CustomOrgRoles) → Outcome (Option CustomOrgRoles × Option (GoError E))
  | [] => .ret (none, some (.errorf notFoundMessage))
  | none :: _ => .panic
  | some role :: rest =>
    match role.Name with
    | none => .panic
    | some name =>
      if name = "security_manager" then .ret (some role, none)
      else scanRoles rest

/-- `GetSecurityManagerRole` (lines 13-26), started after the requests of
`log`; it yields its outcome and the extended log. -/
def GetSecurityManagerRole {E : Type} (s : Client E) (org : String) (log : List (Event E)) :
    Outcome (Option CustomOrgRoles × Option (GoError E)) × List (Event E) :=
  let res := s.ListRoles log.length org
  let log1 := log ++ [Event.listRoles org res]
  match res with
  | (_, _, some err) => (.ret (none, some (.collaborator err)), log1)
  | (none, _, none) => (.panic, log1)
  | (some roles, _, none) => (scanRoles roles.CustomRepoRoles, log1)

/-- The `for` loop of `ListSecurityManagerTeams` (lines 41-53), run for at
most `fuel` iterations: `options` and `securityManagerTeams` are the loop's
two variables. -/
def listTeamsLoop {E : Type} (s : Client E) (org : String) (roleID : Int) :
    Nat → ListOptions → List Team → List (Event E) →
    Outcome (Option (List Team) × Option Response × Option (GoError E)) × List (Event E)
  | 0, _, _, log => (.running, log)
  | fuel + 1, options, securityManagerTeams, log =>
    let res := s.ListTeamsAssignedToOrgRole log.length org roleID options
    let log1 := log ++ [Event.listTeams org roleID options res]
    match res with
    | (_, _, some err) => (.ret (none, none, some (.collaborator err)), log1)
    | (_, none, none) => (.panic, log1)
    | (teams, some resp, none) =>
      if resp.NextPage = 0 then
        (.ret (some (securityManagerTeams ++ teams), some resp, none), log1)
      else
        listTeamsLoop s org roleID fuel { options with Page := resp.NextPage }
          (securityManagerTeams ++ teams) log1

/-- `ListSecurityManagerTeams` (lines 33-54) with its loop bounded by `fuel`
iterations. -/
def ListSecurityManagerTeams {E : Type} (fuel : Nat) (s : Client E) (org : String) :
    Outcome (Option (List Team) × Option Response × Option (GoError E)) × List (Event E) :=
  match GetSecurityManagerRole s org [] with
  | (.ret (_, some err), log) => (.ret (none, none, some err), log)
  | (.ret (securityManagerRole, none), log) =>
    listTeamsLoop s org (GetID securityManagerRole) fuel { Page := 0, PerPage := 100 } [] log
  | (.panic, log) => (.panic, log)
  | (.running, log) => (.running, log)

/-- `AddSecurityManagerTeam` (lines 61-68). -/
def AddSecurityManagerTeam {E : Type} (s : Client E) (org team : String) :
    Outcome (Option Response × Option (GoError E)) × List (Event E) :=
  match GetSecurityManagerRole s org [] with
  | (.ret (_, some err), log) => (.ret (none, some err), log)
  | (.ret (securityManagerRole, none), log) =>
    let res := s.AssignOrgRoleToTeam log.length org team (GetID securityManagerRole)
    (.ret (res.1, res.2.map GoError.collaborator),
      log ++ [Event.assign org team (GetID securityManagerRole) res])
  | (.panic, log) => (.panic, log)
  | (.running, log) => (.running, log)

/-- `RemoveSecurityManagerTeam` (lines 75-82). -/
def RemoveSecurityManagerTeam {E : Type} (s : Client E) (org team : String) :
    Outcome (Option Response × Option (GoError E)) × List (Event E) :=
  match GetSecurityManagerRole s org [] with
  | (.ret (_, some err), log) => (.ret (none, some err), log)
  | (.ret (securityManagerRole, none), log) =>
    let res := s.RemoveOrgRoleFromTeam log.length org team (GetID securityManagerRole)
    (.ret (res.1, res.2.map GoError.collaborator),
      log ++ [Event.remove org team (GetID securityManagerRole) res])
  | (.panic, log) => (.panic, log)
  | (.running, log) => (.running, log)

/-! ## Vocabulary of the statements -/

/-- The name the scan reads from an entry of the role slice: absent when the
entry is a nil pointer or the role's `Name` is nil. -/
def entryName (e : Option CustomOrgRoles) : Option String :=
  e.bind CustomOrgRoles.Name

/-- The error `GetSecurityManagerRole` builds when no role matches. -/
def notFoundError {E : Type} : GoError E := .errorf "security manager role not found"

/-- Whether a logged exchange is a team-listing request. -/
def Event.isListTeams {E : Type} : Event E → Bool
  | .listTeams _ _ _ _ => true
  | _ => false

/-- The team-listing requests of a log, in the order issued. -/
def teamRequests {E : Type} (log : List (Event E)) : List (Event E) :=
  log.filter Event.isListTeams

/-- A successful page of teams: the teams and the response metadata. -/
abbrev Page := List Team × Response

/-- The teams of a sequence of pages, concatenated in page order. -/
def allTeams (pages : List Page) : List Team :=
  (pages.map Prod.fst).flatten

/-- The cursor a request carries after the given pages were received, `p`
being the cursor of the request that fetched the first of them. -/
def cursorAfter (p : Int) : List Page → Int
  | [] => p
  | pg :: rest => cursorAfter pg.2.NextPage rest

/-- The exchanges in which successive requests, the first with cursor `p`
and each later one with the `NextPage` of the response before it, are
answered by the given pages. -/
def pageEvents {E : Type} (org : String) (roleID : Int) (perPage : Int) :
    Int → List Page → List (Event E)
  | _, [] => []
  | p, pg :: rest =>
    Event.listTeams org roleID ⟨p, perPage⟩ (pg.1, some pg.2, none) ::
      pageEvents org roleID perPage pg.2.NextPage rest

/-- The collaborator answers the request issued at time `t` with cursor `p`
by the first page, the next request, carrying that page's `NextPage`, by the
second page, and so on. -/
def Serves {E : Type} (s : Client E) (org : String) (roleID : Int) (perPage : Int) :
    Nat → Int → List Page → Prop
  | _, _, [] => True
  | t, p, pg :: rest =>
    s.ListTeamsAssignedToOrgRole t org roleID ⟨p, perPage⟩ = (pg.1, some pg.2, none) ∧
      Serves s org roleID perPage (t + 1) pg.2.NextPage rest

/-- Whether a team-listing response ends the paging loop: it carries an
error, or no metadata, or metadata whose `NextPage` is zero. -/
def endsListing {E : Type} (res : TeamsResult E) : Bool :=
  match res with
  | (_, _, some _) => true
  | (_, none, none) => true
  | (_, some r, none) => decide (r.NextPage = 0)

/-- How the loop ends on a response that ends it, `acc` being the teams
gathered before. -/
def finalOutcome {E : Type} (acc : List Team) (res : TeamsResult E) :
    Outcome (Option (List Team) × Option Response × Option (GoError E)) :=
  match res with
  | (_, _, some e) => .ret (none, none, some (.collaborator e))
  | (_, none, none) => .panic
  | (ts, some r, none) => .ret (some (acc ++ ts), some r, none)

/-- The teams a logged team-listing response carries (none for the other
exchanges). -/
def Event.teams {E : Type} : Event E → List Team
  | .listTeams _ _ _ res => res.1
  | _ => []

/-- The number of teams on the page a logged exchange carries. -/
def pageSize {E : Type} (ev : Event E) : Nat :=
  (Event.teams ev).length

/-! ## Concrete organizations used to exercise the statements -/

/-- The role named `"security_manager"`, with identifier 2. -/
def smRole : CustomOrgRoles := ⟨some 2, some "security_manager"⟩

/-- Some other role, with identifier 1. -/
def adminRole : CustomOrgRoles := ⟨some 1, some "admin"⟩

/-- A role whose name is absent. -/
def namelessRole : CustomOrgRoles := ⟨some 7, none⟩

/-- The role set `[admin, security_manager]`. -/
def exampleRoles : OrganizationCustomRoles := ⟨some 2, [some adminRole, some smRole]⟩

/-- A team. -/
def teamA : Team := ⟨10, "a"⟩

/-- Another team. -/
def teamB : Team := ⟨11, "b"⟩

/-- An organization with roles `[admin, security_manager]` and two pages of
one team each; assignments succeed and removals fail. -/
def exampleClient : Client String where
  ListRoles := fun _ _ => (some exampleRoles, some ⟨0, 200⟩, none)
  ListTeamsAssignedToOrgRole := fun _ _ _ opts =>
    if opts.Page = 0 then ([teamA], some ⟨2, 200⟩, none) else ([teamB], some ⟨0, 200⟩, none)
  AssignOrgRoleToTeam := fun _ _ _ _ => (some ⟨0, 204⟩, none)
  RemoveOrgRoleFromTeam := fun _ _ _ _ => (some ⟨0, 404⟩, some "no such team")

/-- An organization whose only role has no name. -/
def namelessClient : Client String where
  ListRoles := fun _ _ => (some ⟨some 1, [some namelessRole]⟩, some ⟨0, 200⟩, none)
  ListTeamsAssignedToOrgRole := fun _ _ _ _ => ([], some ⟨0, 200⟩, none)
  AssignOrgRoleToTeam := fun _ _ _ _ => (some ⟨0, 204⟩, none)
  RemoveOrgRoleFromTeam := fun _ _ _ _ => (some ⟨0, 204⟩, none)

/-- An organization with roles `[admin, nameless, security_manager]`. -/
def shadowedClient : Client String where
  ListRoles := fun _ _ =>
    (some ⟨some 3, [some adminRole, some namelessRole, some smRole]⟩, some ⟨0, 200⟩, none)
  ListTeamsAssignedToOrgRole := fun _ _ _ _ => ([], some ⟨0, 200⟩, none)
  AssignOrgRoleToTeam := fun _ _ _ _ => (some ⟨0, 204⟩, none)
  RemoveOrgRoleFromTeam := fun _ _ _ _ => (some ⟨0, 204⟩, none)

/-- An organization with only the role `admin`. -/
def noManagerClient : Client String where
  ListRoles := fun _ _ => (some ⟨some 1, [some adminRole]⟩, some ⟨0, 200⟩, none)
  ListTeamsAssignedToOrgRole := fun _ _ _ _ => ([teamA], some ⟨0, 200⟩, none)
  AssignOrgRoleToTeam := fun _ _ _ _ => (some ⟨0, 204⟩, none)
  RemoveOrgRoleFromTeam := fun _ _ _ _ => (some ⟨0, 204⟩, none)

/-- An organization whose second page of teams cannot be fetched. -/
def failingClient : Client String where
  ListRoles := fun _ _ => (some exampleRoles, some ⟨0, 200⟩, none)
  ListTeamsAssignedToOrgRole := fun t _ _ _ =>
    if t = 1 then ([teamA], some ⟨2, 200⟩, none) else ([teamB], some ⟨3, 502⟩, some "bad gateway")
  AssignOrgRoleToTeam := fun _ _ _ _ => (some ⟨0, 204⟩, none)
  RemoveOrgRoleFromTeam := fun _ _ _ _ => (some ⟨0, 204⟩, none)

/-- An organization whose team listing always announces a further page. -/
def endlessClient : Client String where
  ListRoles := fun _ _ => (some exampleRoles, some ⟨0, 200⟩, none)
  ListTeamsAssignedToOrgRole := fun _ _ _ opts => ([], some ⟨opts.Page + 1, 200⟩, none)
  AssignOrgRoleToTeam := fun _ _ _ _ => (some ⟨0, 204⟩, none)
  RemoveOrgRoleFromTeam := fun _ _ _ _ => (some ⟨0, 204⟩, none)

/-- An organization with 101 teams: a full page of 100 and a page of one. -/
def fullPageClient : Client String where
  ListRoles := fun _ _ => (some exampleRoles, some ⟨0, 200⟩, none)
  ListTeamsAssignedToOrgRole := fun _ _ _ opts =>
    if opts.Page = 0 then (List.replicate 100 teamA, some ⟨2, 200⟩, none)
    else ([teamB], some ⟨0, 200⟩, none)
  AssignOrgRoleToTeam := fun _ _ _ _ => (some ⟨0, 204⟩, none)
  RemoveOrgRoleFromTeam := fun _ _ _ _ => (some ⟨0, 204⟩, none)

/-! ## Role resolution -/

theorem getSecurityManagerRole_log {E : Type} (s : Client E) (org : String) (log : List (Event E)) :
    (GetSecurityManagerRole s org log).2 = log ++ [Event.listRoles org (s.ListRoles log.length org)] := by
  unfold GetSecurityManagerRole
  rcases h : s.ListRoles log.length org with ⟨roles, resp, err⟩
  cases err <;> cases roles <;> simp

theorem getSecurityManagerRole_of_listed {E : Type} (s : Client E) (org : String)
    (log : List (Event E)) (roles : OrganizationCustomRoles) (resp : Option Response)
    (hlist : s.ListRoles log.length org = (some roles, resp, none)) :
    (GetSecurityManagerRole s org log).1 = scanRoles roles.CustomRepoRoles := by
  unfold GetSecurityManagerRole
  simp [hlist]

theorem getSecurityManagerRole_of_error {E : Type} (s : Client E) (org : String)
    (log : List (Event E)) (roles : Option OrganizationCustomRoles) (resp : Option Response)
    (err : E) (hlist : s.ListRoles log.length org = (roles, resp, some err)) :
    (GetSecurityManagerRole s org log).1 = .ret (none, some (.collaborator err)) := by
  unfold GetSecurityManagerRole
  simp [hlist]

theorem getSecurityManagerRole_of_nil {E : Type} (s : Client E) (org : String)
    (log : List (Event E)) (resp : Option Response)
    (hlist : s.ListRoles log.length org = (none, resp, none)) :
    (GetSecurityManagerRole s org log).1 = .panic := by
  unfold GetSecurityManagerRole
  simp [hlist]

/-- With every name present and a match in the list, the scan returns the
entry at the least matching position. -/
theorem scanRoles_first_match {E : Type} (l : List (Option CustomOrgRoles))
    (hnames : ∀ e ∈ l, ∃ r n, e = some r ∧ r.Name = some n)
    (hex : ∃ r, some r ∈ l ∧ r.Name = some "security_manager") :
    ∃ (i : Nat) (r : CustomOrgRoles), l[i]? = some (some r) ∧ r.Name = some "security_manager" ∧
      (∀ j : Nat, j < i → ∀ q : CustomOrgRoles, l[j]? = some (some q) →
        q.Name ≠ some "security_manager") ∧
      (scanRoles l : Outcome (Option CustomOrgRoles × Option (GoError E))) = .ret (some r, none) := by
  induction l with
  | nil => obtain ⟨r, hr, _⟩ := hex; simp at hr
  | cons e rest ih =>
    obtain ⟨r0, n0, he, hn0⟩ := hnames e (List.mem_cons_self _ _)
    subst he
    by_cases hm : n0 = "security_manager"
    · refine ⟨0, r0, by simp, by rw [hn0, hm], ?_, ?_⟩
      · intro j hj; omega
      · simp [scanRoles, hn0, hm]
    · have hex' : ∃ r, some r ∈ rest ∧ r.Name = some "security_manager" := by
        obtain ⟨r, hr, hrn⟩ := hex
        rcases List.mem_cons.mp hr with h | h
        · exfalso
          have : r = r0 := by simpa using h
          subst this
          rw [hn0] at hrn
          exact hm (by simpa using hrn)
        · exact ⟨r, h, hrn⟩
      obtain ⟨i, r, hi, hrn, hmin, hscan⟩ :=
        ih (fun e he => hnames e (List.mem_cons_of_mem _ he)) hex'
      refine ⟨i + 1, r, by simpa using hi, hrn, ?_, ?_⟩
      · intro j hj q hq
        cases j with
        | zero =>
          have : q = r0 := by simpa using hq.symm
          subst this
          rw [hn0]; simpa using hm
        | succ j => exact hmin j (by omega) q (by simpa using hq)
      · simp [scanRoles, hn0, hm, hscan]

/-- The scan never leaves a loop running, and what it returns is either a
role without an error or the not-found error without a role. -/
theorem scanRoles_cases {E : Type} (l : List (Option CustomOrgRoles)) :
    (scanRoles l : Outcome (Option CustomOrgRoles × Option (GoError E))) = .panic ∨
    (scanRoles l : Outcome (Option CustomOrgRoles × Option (GoError E)))
      = .ret (none, some notFoundError) ∨
    ∃ r : CustomOrgRoles, r.Name = some "security_manager" ∧
      (scanRoles l : Outcome (Option CustomOrgRoles × Option (GoError E))) = .ret (some r, none) := by
  induction l with
  | nil => right; left; rfl
  | cons e rest ih =>
    cases e with
    | none => left; rfl
    | some r0 =>
      cases hn : r0.Name with
      | none => left; simp [scanRoles, hn]
      | some n0 =>
        by_cases hm : n0 = "security_manager"
        · right; right
          exact ⟨r0, by rw [hn, hm], by simp [scanRoles, hn, hm]⟩
        · simpa [scanRoles, hn, hm] using ih

/-- The scan faults exactly when an entry without a name stands before every
entry named `"security_manager"`. -/
theorem scanRoles_panic_iff {E : Type} (l : List (Option CustomOrgRoles)) :
    (scanRoles l : Outcome (Option CustomOrgRoles × Option (GoError E))) = .panic ↔
    ∃ (i : Nat) (e : Option CustomOrgRoles), l[i]? = some e ∧ entryName e = none ∧
      ∀ j : Nat, j < i → ∀ q : CustomOrgRoles, l[j]? = some (some q) →
        q.Name ≠ some "security_manager" := by
  induction l with
  | nil => simp [scanRoles]
  | cons e rest ih =>
    cases e with
    | none =>
      simp only [scanRoles, true_iff]
      exact ⟨0, none, by simp, rfl, fun j hj => by omega⟩
    | some r0 =>
      cases hn : r0.Name with
      | none =>
        simp only [scanRoles, hn, true_iff]
        exact ⟨0, some r0, by simp, by simp [entryName, hn], fun j hj => by omega⟩
      | some n0 =>
        by_cases hm : n0 = "security_manager"
        · simp only [scanRoles, hn, hm, if_true, false_iff, reduceCtorEq]
          rintro ⟨i, e, hi, he, hmin⟩
          cases i with
          | zero =>
            have : e = some r0 := by simpa using hi.symm
            subst this
            simp [entryName, hn] at he
          | succ i =>
            exact hmin 0 (by omega) r0 (by simp) (by rw [hn, hm])
        · simp only [scanRoles, hn, hm, if_false]
          rw [ih]
          constructor
          · rintro ⟨i, e, hi, he, hmin⟩
            refine ⟨i + 1, e, by simpa using hi, he, ?_⟩
            intro j hj q hq
            cases j with
            | zero =>
              have : q = r0 := by simpa using hq.symm
              subst this
              rw [hn]; simpa using hm
            | succ j => exact hmin j (by omega) q (by simpa using hq)
          · rintro ⟨i, e, hi, he, hmin⟩
            cases i with
            | zero =>
              have : e = some r0 := by simpa using hi.symm
              subst this
              simp [entryName, hn] at he
            | succ i =>
              refine ⟨i, e, by simpa using hi, he, ?_⟩
              intro j hj q hq
              exact hmin (j + 1) (by omega) q (by simpa using hq)

/-- The scan ends in the not-found error exactly when every entry carries a
name and no name is `"security_manager"`. -/
theorem scanRoles_notFound_iff {E : Type} (l : List (Option CustomOrgRoles)) :
    (scanRoles l : Outcome (Option CustomOrgRoles × Option (GoError E)))
      = .ret (none, some notFoundError) ↔
    ∀ e ∈ l, ∃ (r : CustomOrgRoles) (n : String),
      e = some r ∧ r.Name = some n ∧ n ≠ "security_manager" := by
  induction l with
  | nil => simp [scanRoles, notFoundError, notFoundMessage]
  | cons e rest ih =>
    cases e with
    | none => simp [scanRoles]
    | some r0 =>
      cases hn : r0.Name with
      | none => simp [scanRoles, hn]
      | some n0 =>
        by_cases hm : n0 = "security_manager"
        · simp [scanRoles, hn, hm]
        · simp only [scanRoles, hn, hm, if_false, ih, List.mem_cons, forall_eq_or_imp]
          constructor
          · intro h
            exact ⟨⟨r0, n0, rfl, hn, hm⟩, h⟩
          · intro h
            exact h.2

/-- What follows a named match is never read. -/
theorem scanRoles_match_prefix {E : Type} (pre post : List (Option CustomOrgRoles))
    (r : CustomOrgRoles) (hr : r.Name = some "security_manager")
    (hpre : ∀ e ∈ pre, ∃ n : String, entryName e = some n ∧ n ≠ "security_manager") :
    (scanRoles (pre ++ some r :: post) : Outcome (Option CustomOrgRoles × Option (GoError E)))
      = .ret (some r, none) := by
  induction pre with
  | nil => simp [scanRoles, hr]
  | cons e rest ih =>
    obtain ⟨n, hn, hne⟩ := hpre e (List.mem_cons_self _ _)
    cases e with
    | none => simp [entryName] at hn
    | some r0 =>
      have hn0 : r0.Name = some n := by simpa [entryName] using hn
      simp only [List.cons_append, scanRoles, hn0, hne, if_false]
      exact ih (fun e he => hpre e (List.mem_cons_of_mem _ he))

/-! ## The paging loop -/

theorem listTeamsLoop_err {E : Type} (s : Client E) (org : String) (roleID : Int) (fuel : Nat)
    (options : ListOptions) (acc : List Team) (log : List (Event E))
    (ts : List Team) (resp : Option Response) (e : E)
    (h : s.ListTeamsAssignedToOrgRole log.length org roleID options = (ts, resp, some e)) :
    listTeamsLoop s org roleID (fuel + 1) options acc log =
      (.ret (none, none, some (.collaborator e)),
        log ++ [Event.listTeams org roleID options (ts, resp, some e)]) := by
  simp [listTeamsLoop, h]

theorem listTeamsLoop_nil {E : Type} (s : Client E) (org : String) (roleID : Int) (fuel : Nat)
    (options : ListOptions) (acc : List Team) (log : List (Event E)) (ts : List Team)
    (h : s.ListTeamsAssignedToOrgRole log.length org roleID options = (ts, none, none)) :
    listTeamsLoop s org roleID (fuel + 1) options acc log =
      (.panic, log ++ [Event.listTeams org roleID options (ts, none, none)]) := by
  simp [listTeamsLoop, h]

theorem listTeamsLoop_last {E : Type} (s : Client E) (org : String) (roleID : Int) (fuel : Nat)
    (options : ListOptions) (acc : List Team) (log : List (Event E))
    (ts : List Team) (r : Response)
    (h : s.ListTeamsAssignedToOrgRole log.length org roleID options = (ts, some r, none))
    (h0 : r.NextPage = 0) :
    listTeamsLoop s org roleID (fuel + 1) options acc log =
      (.ret (some (acc ++ ts), some r, none),
        log ++ [Event.listTeams org roleID options (ts, some r, none)]) := by
  simp [listTeamsLoop, h, h0]

theorem listTeamsLoop_more {E : Type} (s : Client E) (org : String) (roleID : Int) (fuel : Nat)
    (options : ListOptions) (acc : List Team) (log : List (Event E))
    (ts : List Team) (r : Response)
    (h : s.ListTeamsAssignedToOrgRole log.length org roleID options = (ts, some r, none))
    (h0 : r.NextPage ≠ 0) :
    listTeamsLoop s org roleID (fuel + 1) options acc log =
      listTeamsLoop s org roleID fuel ⟨r.NextPage, options.PerPage⟩ (acc ++ ts)
        (log ++ [Event.listTeams org roleID options (ts, some r, none)]) := by
  simp [listTeamsLoop, h, h0]

theorem allTeams_cons (pg : Page) (rest : List Page) :
    allTeams (pg :: rest) = pg.1 ++ allTeams rest := by
  simp [allTeams]

theorem allTeams_append (a b : List Page) : allTeams (a ++ b) = allTeams a ++ allTeams b := by
  simp [allTeams]

theorem pageEvents_length {E : Type} (org : String) (roleID perPage : Int) (pages : List Page) :
    ∀ p : Int, (pageEvents org roleID perPage p pages : List (Event E)).length = pages.length := by
  induction pages with
  | nil => intro p; rfl
  | cons pg rest ih => intro p; simp [pageEvents, ih]

/-- While the collaborator serves pages with a non-zero `NextPage`, the loop
consumes them one iteration each. -/
theorem listTeamsLoop_advance {E : Type} (s : Client E) (org : String) (roleID perPage : Int)
    (pages : List Page) :
    ∀ (p : Int) (acc : List Team) (log : List (Event E)) (fuel : Nat),
      Serves s org roleID perPage log.length p pages →
      (∀ pg ∈ pages, pg.2.NextPage ≠ 0) →
      listTeamsLoop s org roleID (pages.length + fuel) ⟨p, perPage⟩ acc log =
        listTeamsLoop s org roleID fuel ⟨cursorAfter p pages, perPage⟩ (acc ++ allTeams pages)
          (log ++ pageEvents org roleID perPage p pages) := by
  induction pages with
  | nil => intro p acc log fuel _ _; simp [cursorAfter, allTeams, pageEvents]
  | cons pg rest ih =>
    intro p acc log fuel hs hnz
    obtain ⟨h1, h2⟩ := hs
    have hpg : pg.2.NextPage ≠ 0 := hnz pg (List.mem_cons_self _ _)
    have hlen : (pg :: rest).length + fuel = (rest.length + fuel) + 1 := by
      simp only [List.length_cons]; omega
    rw [hlen, listTeamsLoop_more s org roleID _ ⟨p, perPage⟩ acc log pg.1 pg.2 h1 hpg]
    have h2' : Serves s org roleID perPage
        (log ++ [Event.listTeams org roleID ⟨p, perPage⟩ (pg.1, some pg.2, none)]).length
        pg.2.NextPage rest := by
      simpa using h2
    rw [ih pg.2.NextPage _ _ fuel h2' (fun q hq => hnz q (List.mem_cons_of_mem _ hq))]
    simp [cursorAfter, allTeams_cons, pageEvents, List.append_assoc]

/-- An iteration whose response ends the loop. -/
theorem listTeamsLoop_final {E : Type} (s : Client E) (org : String) (roleID : Int) (fuel : Nat)
    (options : ListOptions) (acc : List Team) (log : List (Event E))
    (h : endsListing (s.ListTeamsAssignedToOrgRole log.length org roleID options) = true) :
    listTeamsLoop s org roleID (fuel + 1) options acc log =
      (finalOutcome acc (s.ListTeamsAssignedToOrgRole log.length org roleID options),
        log ++ [Event.listTeams org roleID options
          (s.ListTeamsAssignedToOrgRole log.length org roleID options)]) := by
  rcases hres : s.ListTeamsAssignedToOrgRole log.length org roleID options with ⟨ts, resp, err⟩
  rw [hres] at h
  cases err with
  | some e => rw [listTeamsLoop_err s org roleID fuel options acc log ts resp e hres]; simp [finalOutcome]
  | none =>
    cases resp with
    | none => rw [listTeamsLoop_nil s org roleID fuel options acc log ts hres]; rfl
    | some r =>
      have h0 : r.NextPage = 0 := by simpa [endsListing] using h
      rw [listTeamsLoop_last s org roleID fuel options acc log ts r hres h0]; rfl

/-- A response that does not end the loop is a page with a non-zero cursor. -/
theorem not_endsListing {E : Type} (res : TeamsResult E) (h : endsListing res = false) :
    ∃ (ts : List Team) (r : Response), res = (ts, some r, none) ∧ r.NextPage ≠ 0 := by
  rcases res with ⟨ts, resp, err⟩
  cases err with
  | some e => simp [endsListing] at h
  | none =>
    cases resp with
    | none => simp [endsListing] at h
    | some r => exact ⟨ts, r, rfl, by simpa [endsListing] using h⟩

/-- Every bounded run of the loop: it receives some pages with a non-zero
`NextPage`, and then either the iterations are used up or one more response
ends it. -/
theorem listTeamsLoop_run {E : Type} (s : Client E) (org : String) (roleID perPage : Int) :
    ∀ (fuel : Nat) (p : Int) (acc : List Team) (log : List (Event E)),
      ∃ init : List Page,
        (∀ pg ∈ init, pg.2.NextPage ≠ 0) ∧
        Serves s org roleID perPage log.length p init ∧
        ((init.length = fuel ∧
            listTeamsLoop s org roleID fuel ⟨p, perPage⟩ acc log =
              (.running, log ++ pageEvents org roleID perPage p init)) ∨
         (init.length < fuel ∧
            endsListing (s.ListTeamsAssignedToOrgRole (log.length + init.length) org roleID
              ⟨cursorAfter p init, perPage⟩) = true ∧
            listTeamsLoop s org roleID fuel ⟨p, perPage⟩ acc log =
              (finalOutcome (acc ++ allTeams init)
                  (s.ListTeamsAssignedToOrgRole (log.length + init.length) org roleID
                    ⟨cursorAfter p init, perPage⟩),
                log ++ pageEvents org roleID perPage p init ++
                  [Event.listTeams org roleID ⟨cursorAfter p init, perPage⟩
                    (s.ListTeamsAssignedToOrgRole (log.length + init.length) org roleID
                      ⟨cursorAfter p init, perPage⟩)]))) := by
  intro fuel
  induction fuel with
  | zero =>
    intro p acc log
    exact ⟨[], by simp, trivial, Or.inl ⟨rfl, by simp [listTeamsLoop, pageEvents]⟩⟩
  | succ fuel ih =>
    intro p acc log
    cases hend : endsListing (s.ListTeamsAssignedToOrgRole log.length org roleID ⟨p, perPage⟩) with
    | true =>
      refine ⟨[], by simp, trivial, Or.inr ⟨by simp, by simpa [cursorAfter] using hend, ?_⟩⟩
      rw [listTeamsLoop_final s org roleID fuel ⟨p, perPage⟩ acc log hend]
      simp [cursorAfter, allTeams, pageEvents]
    | false =>
      obtain ⟨ts, r, hres, hnz⟩ := not_endsListing _ hend
      rw [listTeamsLoop_more s org roleID fuel ⟨p, perPage⟩ acc log ts r hres hnz]
      obtain ⟨init, hinit, hserves, hcase⟩ := ih r.NextPage (acc ++ ts)
        (log ++ [Event.listTeams org roleID ⟨p, perPage⟩ (ts, some r, none)])
      have hlen : (log ++ [Event.listTeams org roleID ⟨p, perPage⟩ (ts, some r, none)]).length
          = log.length + 1 := by simp
      rw [hlen] at hserves hcase
      refine ⟨(ts, r) :: init, ?_, ⟨hres, hserves⟩, ?_⟩
      · intro pg hpg
        rcases List.mem_cons.mp hpg with h | h
        · subst h; exact hnz
        · exact hinit pg h
      · have hidx : log.length + ((ts, r) :: init).length = log.length + 1 + init.length := by
          simp only [List.length_cons]; omega
        rcases hcase with ⟨h1, h2⟩ | ⟨h1, h2, h3⟩
        · left
          refine ⟨by simp [h1], ?_⟩
          rw [h2]; simp [pageEvents, List.append_assoc]
        · right
          refine ⟨by simp only [List.length_cons]; omega, ?_, ?_⟩
          · rw [hidx]; simpa [cursorAfter] using h2
          · rw [h3, hidx]; simp [cursorAfter, pageEvents, allTeams_cons, List.append_assoc]

/-! ## The operations in terms of the resolver's outcome -/

theorem getSecurityManagerRole_ne_running {E : Type} (s : Client E) (org : String)
    (log : List (Event E)) : (GetSecurityManagerRole s org log).1 ≠ .running := by
  unfold GetSecurityManagerRole
  rcases h : s.ListRoles log.length org with ⟨roles, resp, err⟩
  cases err with
  | some e => simp
  | none =>
    cases roles with
    | none => simp
    | some rs =>
      rcases scanRoles_cases (E := E) rs.CustomRepoRoles with h1 | h1 | ⟨r, _, h1⟩ <;> simp [h1]

/-- What the resolver returns with an error carries no role. -/
theorem getSecurityManagerRole_error_no_role {E : Type} (s : Client E) (org : String)
    (log : List (Event E)) (x : Option CustomOrgRoles) (err : GoError E)
    (h : (GetSecurityManagerRole s org log).1 = .ret (x, some err)) : x = none := by
  unfold GetSecurityManagerRole at h
  rcases hl : s.ListRoles log.length org with ⟨roles, resp, e⟩
  rw [hl] at h
  cases e with
  | some e => simp at h; exact h.1.symm
  | none =>
    cases roles with
    | none => simp at h
    | some rs =>
      simp only at h
      rcases scanRoles_cases (E := E) rs.CustomRepoRoles with h1 | h1 | ⟨r, _, h1⟩
      · rw [h1] at h; simp at h
      · rw [h1] at h; simp at h; exact h.1.symm
      · rw [h1] at h; simp at h

theorem getSecurityManagerRole_pair {E : Type} (s : Client E) (org : String)
    (o : Outcome (Option CustomOrgRoles × Option (GoError E)))
    (h : (GetSecurityManagerRole s org []).1 = o) :
    GetSecurityManagerRole s org [] = (o, [Event.listRoles org (s.ListRoles 0 org)]) := by
  have h2 := getSecurityManagerRole_log s org []
  rw [Prod.ext_iff]
  exact ⟨h, by simpa using h2⟩

theorem listSecurityManagerTeams_of_resolved {E : Type} (fuel : Nat) (s : Client E) (org : String)
    (role : Option CustomOrgRoles)
    (h : (GetSecurityManagerRole s org []).1 = .ret (role, none)) :
    ListSecurityManagerTeams fuel s org =
      listTeamsLoop s org (GetID role) fuel ⟨0, 100⟩ []
        [Event.listRoles org (s.ListRoles 0 org)] := by
  unfold ListSecurityManagerTeams
  rw [getSecurityManagerRole_pair s org _ h]

theorem listSecurityManagerTeams_of_failed {E : Type} (fuel : Nat) (s : Client E) (org : String)
    (x : Option CustomOrgRoles) (err : GoError E)
    (h : (GetSecurityManagerRole s org []).1 = .ret (x, some err)) :
    ListSecurityManagerTeams fuel s org =
      (.ret (none, none, some err), [Event.listRoles org (s.ListRoles 0 org)]) := by
  unfold ListSecurityManagerTeams
  rw [getSecurityManagerRole_pair s org _ h]

theorem listSecurityManagerTeams_of_panic {E : Type} (fuel : Nat) (s : Client E) (org : String)
    (h : (GetSecurityManagerRole s org []).1 = .panic) :
    ListSecurityManagerTeams fuel s org =
      (.panic, [Event.listRoles org (s.ListRoles 0 org)]) := by
  unfold ListSecurityManagerTeams
  rw [getSecurityManagerRole_pair s org _ h]

/-! ## Claims about role resolution -/

/-- C1: when the role listing succeeds with a role set whose entries all carry
a name and one of which is named `"security_manager"`, `GetSecurityManagerRole`
returns, without error and after the one list-roles request, the entry at the
least position carrying that name; when only one role carries the name, the
returned role is that role and so has its identifier. -/
theorem getSecurityManagerRole_returns_first_match {E : Type} (s : Client E) (org : String)
    (log : List (Event E)) (roles : OrganizationCustomRoles) (resp : Option Response)
    (hlist : s.ListRoles log.length org = (some roles, resp, none))
    (hnames : ∀ e ∈ roles.CustomRepoRoles, ∃ (r : CustomOrgRoles) (n : String),
      e = some r ∧ r.Name = some n)
    (hex : ∃ r : CustomOrgRoles, some r ∈ roles.CustomRepoRoles ∧
      r.Name = some "security_manager") :
    ∃ (i : Nat) (r : CustomOrgRoles),
      roles.CustomRepoRoles[i]? = some (some r) ∧ r.Name = some "security_manager" ∧
      (∀ j : Nat, j < i → ∀ q : CustomOrgRoles, roles.CustomRepoRoles[j]? = some (some q) →
        q.Name ≠ some "security_manager") ∧
      GetSecurityManagerRole s org log =
        (.ret (some r, none), log ++ [Event.listRoles org (some roles, resp, none)]) ∧
      (∀ q : CustomOrgRoles, some q ∈ roles.CustomRepoRoles →
        q.Name = some "security_manager" →
        (∀ q2 : CustomOrgRoles, some q2 ∈ roles.CustomRepoRoles →
          q2.Name = some "security_manager" → q2 = q) →
        r = q ∧ GetID (some r) = GetID (some q)) := by
  obtain ⟨i, r, hi, hr, hmin, hscan⟩ :=
    scanRoles_first_match (E := E) roles.CustomRepoRoles hnames hex
  refine ⟨i, r, hi, hr, hmin, ?_, ?_⟩
  · rw [Prod.ext_iff]
    refine ⟨?_, ?_⟩
    · rw [getSecurityManagerRole_of_listed s org log roles resp hlist]; exact hscan
    · rw [getSecurityManagerRole_log, hlist]
  · intro q _ _ huniq
    have hmem : some r ∈ roles.CustomRepoRoles := List.getElem?_mem hi
    have : r = q := huniq r hmem hr
    exact ⟨this, by rw [this]⟩

theorem getSecurityManagerRole_returns_first_match_witness :
    exampleClient.ListRoles ([] : List (Event String)).length "acme"
        = (some exampleRoles, some ⟨0, 200⟩, none) ∧
    (∃ (i : Nat) (r : CustomOrgRoles),
      exampleRoles.CustomRepoRoles[i]? = some (some r) ∧ r.Name = some "security_manager" ∧
      (∀ j : Nat, j < i → ∀ q : CustomOrgRoles, exampleRoles.CustomRepoRoles[j]? = some (some q) →
        q.Name ≠ some "security_manager") ∧
      GetSecurityManagerRole exampleClient "acme" [] =
        (.ret (some r, none), [] ++ [Event.listRoles "acme" (some exampleRoles, some ⟨0, 200⟩, none)]) ∧
      (∀ q : CustomOrgRoles, some q ∈ exampleRoles.CustomRepoRoles →
        q.Name = some "security_manager" →
        (∀ q2 : CustomOrgRoles, some q2 ∈ exampleRoles.CustomRepoRoles →
          q2.Name = some "security_manager" → q2 = q) →
        r = q ∧ GetID (some r) = GetID (some q))) :=
  ⟨rfl, getSecurityManagerRole_returns_first_match exampleClient "acme" [] exampleRoles
    (some ⟨0, 200⟩) rfl
    (by
      intro e he
      simp only [exampleRoles, List.mem_cons, List.mem_singleton, List.not_mem_nil, or_false] at he
      rcases he with h | h
      · exact ⟨adminRole, "admin", h, rfl⟩
      · exact ⟨smRole, "security_manager", h, rfl⟩)
    ⟨smRole, by simp [exampleRoles], rfl⟩⟩

/-- C2, as the code has it: `GetSecurityManagerRole` returns the not-found
error (message `"security manager role not found"`, no role) if and only if
the role listing succeeds with a role set in which every entry carries a name
and no name is `"security_manager"`; no error is ever returned together with
a role; and when the role listing fails, the error returned is the
collaborator's error, which is not the not-found error. -/
theorem getSecurityManagerRole_notFound_iff {E : Type} (s : Client E) (org : String)
    (log : List (Event E)) :
    ((GetSecurityManagerRole s org log).1 = .ret (none, some (.errorf "security manager role not found")) ↔
      ∃ (roles : OrganizationCustomRoles) (resp : Option Response),
        s.ListRoles log.length org = (some roles, resp, none) ∧
        ∀ e ∈ roles.CustomRepoRoles, ∃ (r : CustomOrgRoles) (n : String),
          e = some r ∧ r.Name = some n ∧ n ≠ "security_manager") ∧
    (∀ (x : Option CustomOrgRoles) (err : GoError E),
      (GetSecurityManagerRole s org log).1 = .ret (x, some err) → x = none) ∧
    (∀ (roles : Option OrganizationCustomRoles) (resp : Option Response) (e : E),
      s.ListRoles log.length org = (roles, resp, some e) →
      (GetSecurityManagerRole s org log).1 = .ret (none, some (.collaborator e)) ∧
      (GetSecurityManagerRole s org log).1 ≠
        .ret (none, some (.errorf "security manager role not found"))) := by
  refine ⟨?_, ?_, ?_⟩
  · constructor
    · intro h
      rcases hl : s.ListRoles log.length org with ⟨roles, resp, err⟩
      cases err with
      | some e =>
        rw [getSecurityManagerRole_of_error s org log roles resp e hl] at h
        simp at h
      | none =>
        cases roles with
        | none =>
          rw [getSecurityManagerRole_of_nil s org log resp hl] at h
          simp at h
        | some rs =>
          rw [getSecurityManagerRole_of_listed s org log rs resp hl] at h
          exact ⟨rs, resp, rfl, (scanRoles_notFound_iff rs.CustomRepoRoles).mp h⟩
    · rintro ⟨roles, resp, hl, hall⟩
      rw [getSecurityManagerRole_of_listed s org log roles resp hl]
      exact (scanRoles_notFound_iff roles.CustomRepoRoles).mpr hall
  · intro x err h
    exact getSecurityManagerRole_error_no_role s org log x err h
  · intro roles resp e hl
    rw [getSecurityManagerRole_of_error s org log roles resp e hl]
    exact ⟨rfl, by simp⟩

/-- C2 fails as stated: the role listing of this organization succeeds and
none of its roles is named `"security_manager"`, yet the resolver does not
return the not-found error: it faults on the role without a name. -/
theorem getSecurityManagerRole_notFound_counterexample :
    (∃ (roles : OrganizationCustomRoles) (resp : Option Response),
      namelessClient.ListRoles 0 "acme" = (some roles, resp, none) ∧
      ∀ r : CustomOrgRoles, some r ∈ roles.CustomRepoRoles →
        r.Name ≠ some "security_manager") ∧
    (GetSecurityManagerRole namelessClient "acme" []).1 ≠
      .ret (none, some (.errorf "security manager role not found")) ∧
    (GetSecurityManagerRole namelessClient "acme" []).1 = .panic := by
  refine ⟨⟨⟨some 1, [some namelessRole]⟩, some ⟨0, 200⟩, rfl, ?_⟩, by decide, by decide⟩
  intro r hr
  have : r = namelessRole := by simpa using hr
  subst this
  simp [namelessRole]

/-- C10: for a successfully listed role set, the scan of
`GetSecurityManagerRole` faults if and only if an entry without a name stands
at a position before which no role is named `"security_manager"`; it does not
fault when every entry carries a name; and whatever follows the first role of
that name, nameless or not, leaves the result that role. -/
theorem getSecurityManagerRole_faults_iff {E : Type} (s : Client E) (org : String)
    (log : List (Event E)) (roles : OrganizationCustomRoles) (resp : Option Response)
    (hlist : s.ListRoles log.length org = (some roles, resp, none)) :
    ((GetSecurityManagerRole s org log).1 = .panic ↔
      ∃ (i : Nat) (e : Option CustomOrgRoles),
        roles.CustomRepoRoles[i]? = some e ∧ entryName e = none ∧
        ∀ j : Nat, j < i → ∀ q : CustomOrgRoles, roles.CustomRepoRoles[j]? = some (some q) →
          q.Name ≠ some "security_manager") ∧
    ((∀ e ∈ roles.CustomRepoRoles, entryName e ≠ none) →
      (GetSecurityManagerRole s org log).1 ≠ .panic) ∧
    (∀ (pre post : List (Option CustomOrgRoles)) (r : CustomOrgRoles),
      roles.CustomRepoRoles = pre ++ some r :: post →
      r.Name = some "security_manager" →
      (∀ e ∈ pre, ∃ n : String, entryName e = some n ∧ n ≠ "security_manager") →
      (GetSecurityManagerRole s org log).1 = .ret (some r, none)) := by
  rw [getSecurityManagerRole_of_listed s org log roles resp hlist]
  refine ⟨scanRoles_panic_iff roles.CustomRepoRoles, ?_, ?_⟩
  · intro hall hp
    obtain ⟨i, e, hi, he, _⟩ := (scanRoles_panic_iff roles.CustomRepoRoles).mp hp
    exact hall e (List.getElem?_mem hi) he
  · intro pre post r hsplit hr hpre
    rw [hsplit]
    exact scanRoles_match_prefix pre post r hr hpre

theorem getSecurityManagerRole_faults_iff_witness :
    shadowedClient.ListRoles ([] : List (Event String)).length "acme" =
      (some ⟨some 3, [some adminRole, some namelessRole, some smRole]⟩, some ⟨0, 200⟩, none) ∧
    (GetSecurityManagerRole shadowedClient "acme" []).1 = .panic ∧
    ∃ (i : Nat) (e : Option CustomOrgRoles),
      [some adminRole, some namelessRole, some smRole][i]? = some e ∧ entryName e = none ∧
      ∀ j : Nat, j < i → ∀ q : CustomOrgRoles,
        [some adminRole, some namelessRole, some smRole][j]? = some (some q) →
        q.Name ≠ some "security_manager" :=
  ⟨rfl, by decide,
    (getSecurityManagerRole_faults_iff shadowedClient "acme" []
      ⟨some 3, [some adminRole, some namelessRole, some smRole]⟩ (some ⟨0, 200⟩) rfl).1.mp
      (by decide)⟩

/-! ## Claims about the two mutations and about failed resolution -/

/-- C5: when role resolution succeeds with role `r`, `AddSecurityManagerTeam`
and `RemoveSecurityManagerTeam` each issue one list-roles request followed by
one mutation request (assign for Add, unassign for Remove) with the arguments
`(org, team, GetID r)`, and return that call's response metadata and error
unchanged, whether it succeeded or failed. -/
theorem add_remove_issue_one_mutation {E : Type} (s : Client E) (org team : String)
    (r : CustomOrgRoles)
    (hrole : (GetSecurityManagerRole s org []).1 = .ret (some r, none)) :
    AddSecurityManagerTeam s org team =
      (.ret ((s.AssignOrgRoleToTeam 1 org team (GetID (some r))).1,
          (s.AssignOrgRoleToTeam 1 org team (GetID (some r))).2.map GoError.collaborator),
        [Event.listRoles org (s.ListRoles 0 org),
         Event.assign org team (GetID (some r))
           (s.AssignOrgRoleToTeam 1 org team (GetID (some r)))]) ∧
    RemoveSecurityManagerTeam s org team =
      (.ret ((s.RemoveOrgRoleFromTeam 1 org team (GetID (some r))).1,
          (s.RemoveOrgRoleFromTeam 1 org team (GetID (some r))).2.map GoError.collaborator),
        [Event.listRoles org (s.ListRoles 0 org),
         Event.remove org team (GetID (some r))
           (s.RemoveOrgRoleFromTeam 1 org team (GetID (some r)))]) := by
  constructor
  · unfold AddSecurityManagerTeam
    rw [getSecurityManagerRole_pair s org _ hrole]
    simp
  · unfold RemoveSecurityManagerTeam
    rw [getSecurityManagerRole_pair s org _ hrole]
    simp

theorem add_remove_issue_one_mutation_witness :
    (GetSecurityManagerRole exampleClient "acme" []).1 = .ret (some smRole, none) ∧
    AddSecurityManagerTeam exampleClient "acme" "blue" =
      (.ret (some ⟨0, 204⟩, none),
        [Event.listRoles "acme" (some exampleRoles, some ⟨0, 200⟩, none),
         Event.assign "acme" "blue" 2 (some ⟨0, 204⟩, none)]) ∧
    RemoveSecurityManagerTeam exampleClient "acme" "blue" =
      (.ret (some ⟨0, 404⟩, some (.collaborator "no such team")),
        [Event.listRoles "acme" (some exampleRoles, some ⟨0, 200⟩, none),
         Event.remove "acme" "blue" 2 (some ⟨0, 404⟩, some "no such team")]) :=
  ⟨by decide, add_remove_issue_one_mutation exampleClient "acme" "blue" smRole (by decide)⟩

/-- C6, as the code has it: when role resolution fails, that is the role
listing errors, or it succeeds with a role set in which every role has a
name present and no role is named `"security_manager"`, the resolver returns
an error (the collaborator's, or the not-found error), and
`ListSecurityManagerTeams`, `AddSecurityManagerTeam` and
`RemoveSecurityManagerTeam` each return that very error with no other result,
the list-roles request being the only request they issue. -/
theorem resolution_failure_is_propagated {E : Type} (s : Client E) (org team : String)
    (fuel : Nat) (err : GoError E)
    (hfail :
      (∃ (roles : Option OrganizationCustomRoles) (resp : Option Response) (e : E),
        s.ListRoles 0 org = (roles, resp, some e) ∧ err = .collaborator e) ∨
      (∃ (roles : OrganizationCustomRoles) (resp : Option Response),
        s.ListRoles 0 org = (some roles, resp, none) ∧
        (∀ entry ∈ roles.CustomRepoRoles, ∃ (r : CustomOrgRoles) (n : String),
          entry = some r ∧ r.Name = some n ∧ n ≠ "security_manager") ∧
        err = .errorf "security manager role not found")) :
    GetSecurityManagerRole s org [] =
      (.ret (none, some err), [Event.listRoles org (s.ListRoles 0 org)]) ∧
    ListSecurityManagerTeams fuel s org =
      (.ret (none, none, some err), [Event.listRoles org (s.ListRoles 0 org)]) ∧
    AddSecurityManagerTeam s org team =
      (.ret (none, some err), [Event.listRoles org (s.ListRoles 0 org)]) ∧
    RemoveSecurityManagerTeam s org team =
      (.ret (none, some err), [Event.listRoles org (s.ListRoles 0 org)]) := by
  have hres : (GetSecurityManagerRole s org []).1 = .ret (none, some err) := by
    rcases hfail with ⟨roles, resp, e, hl, herr⟩ | ⟨roles, resp, hl, hall, herr⟩
    · rw [herr]
      exact getSecurityManagerRole_of_error s org [] roles resp e hl
    · rw [herr, getSecurityManagerRole_of_listed s org [] roles resp hl]
      exact (scanRoles_notFound_iff roles.CustomRepoRoles).mpr hall
  refine ⟨getSecurityManagerRole_pair s org _ hres,
    listSecurityManagerTeams_of_failed fuel s org none err hres, ?_, ?_⟩
  · unfold AddSecurityManagerTeam
    rw [getSecurityManagerRole_pair s org _ hres]
  · unfold RemoveSecurityManagerTeam
    rw [getSecurityManagerRole_pair s org _ hres]

theorem resolution_failure_is_propagated_witness :
    ((∃ (roles : Option OrganizationCustomRoles) (resp : Option Response) (e : String),
        noManagerClient.ListRoles 0 "acme" = (roles, resp, some e) ∧
        GoError.errorf "security manager role not found" = .collaborator e) ∨
      (∃ (roles : OrganizationCustomRoles) (resp : Option Response),
        noManagerClient.ListRoles 0 "acme" = (some roles, resp, none) ∧
        (∀ entry ∈ roles.CustomRepoRoles, ∃ (r : CustomOrgRoles) (n : String),
          entry = some r ∧ r.Name = some n ∧ n ≠ "security_manager") ∧
        GoError.errorf "security manager role not found" =
          (.errorf "security manager role not found" : GoError String))) ∧
    GetSecurityManagerRole noManagerClient "acme" [] =
      (.ret (none, some (.errorf "security manager role not found")),
        [Event.listRoles "acme" (noManagerClient.ListRoles 0 "acme")]) ∧
    ListSecurityManagerTeams 3 noManagerClient "acme" =
      (.ret (none, none, some (.errorf "security manager role not found")),
        [Event.listRoles "acme" (noManagerClient.ListRoles 0 "acme")]) ∧
    AddSecurityManagerTeam noManagerClient "acme" "blue" =
      (.ret (none, some (.errorf "security manager role not found")),
        [Event.listRoles "acme" (noManagerClient.ListRoles 0 "acme")]) ∧
    RemoveSecurityManagerTeam noManagerClient "acme" "blue" =
      (.ret (none, some (.errorf "security manager role not found")),
        [Event.listRoles "acme" (noManagerClient.ListRoles 0 "acme")]) :=
  have hfail :
      (∃ (roles : Option OrganizationCustomRoles) (resp : Option Response) (e : String),
        noManagerClient.ListRoles 0 "acme" = (roles, resp, some e) ∧
        GoError.errorf "security manager role not found" = .collaborator e) ∨
      (∃ (roles : OrganizationCustomRoles) (resp : Option Response),
        noManagerClient.ListRoles 0 "acme" = (some roles, resp, none) ∧
        (∀ entry ∈ roles.CustomRepoRoles, ∃ (r : CustomOrgRoles) (n : String),
          entry = some r ∧ r.Name = some n ∧ n ≠ "security_manager") ∧
        GoError.errorf "security manager role not found" =
          (.errorf "security manager role not found" : GoError String)) :=
    Or.inr ⟨⟨some 1, [some adminRole]⟩, some ⟨0, 200⟩, rfl,
      fun entry hentry => ⟨adminRole, "admin", by simpa using hentry, rfl, by decide⟩, rfl⟩
  ⟨hfail, resolution_failure_is_propagated noManagerClient "acme" "blue" 3
    (.errorf "security manager role not found") hfail⟩

/-- C6 fails as stated: the role listing of this organization succeeds and
none of its roles is named `"security_manager"`, yet the three operations
return no error: each faults, with the resolver, on the role without a name. -/
theorem resolution_failure_counterexample :
    (∃ (roles : OrganizationCustomRoles) (resp : Option Response),
      namelessClient.ListRoles 0 "acme" = (some roles, resp, none) ∧
      ∀ r : CustomOrgRoles, some r ∈ roles.CustomRepoRoles →
        r.Name ≠ some "security_manager") ∧
    (∀ fuel : Nat, ListSecurityManagerTeams fuel namelessClient "acme" =
      (.panic, [Event.listRoles "acme" (namelessClient.ListRoles 0 "acme")])) ∧
    AddSecurityManagerTeam namelessClient "acme" "blue" =
      (.panic, [Event.listRoles "acme" (namelessClient.ListRoles 0 "acme")]) ∧
    RemoveSecurityManagerTeam namelessClient "acme" "blue" =
      (.panic, [Event.listRoles "acme" (namelessClient.ListRoles 0 "acme")]) := by
  refine ⟨⟨⟨some 1, [some namelessRole]⟩, some ⟨0, 200⟩, rfl, ?_⟩, ?_, by decide, by decide⟩
  · intro r hr
    have : r = namelessRole := by simpa using hr
    subst this
    simp [namelessRole]
  · intro fuel
    exact listSecurityManagerTeams_of_panic fuel namelessClient "acme" (by decide)

/-! ## Logs of the paging loop -/

theorem pageEvents_append {E : Type} (org : String) (roleID perPage : Int) (a b : List Page) :
    ∀ p : Int, (pageEvents org roleID perPage p (a ++ b) : List (Event E)) =
      pageEvents org roleID perPage p a ++ pageEvents org roleID perPage (cursorAfter p a) b := by
  induction a with
  | nil => intro p; simp [pageEvents, cursorAfter]
  | cons pg rest ih => intro p; simp [pageEvents, cursorAfter, ih]

theorem serves_append {E : Type} (s : Client E) (org : String) (roleID perPage : Int)
    (a b : List Page) :
    ∀ (t : Nat) (p : Int), Serves s org roleID perPage t p (a ++ b) ↔
      (Serves s org roleID perPage t p a ∧
        Serves s org roleID perPage (t + a.length) (cursorAfter p a) b) := by
  induction a with
  | nil => intro t p; simp [Serves, cursorAfter]
  | cons pg rest ih =>
    intro t p
    have hlen : t + (pg :: rest).length = t + 1 + rest.length := by
      simp only [List.length_cons]; omega
    rw [hlen]
    show (_ ∧ Serves s org roleID perPage (t + 1) pg.2.NextPage (rest ++ b)) ↔ _
    rw [ih (t + 1) pg.2.NextPage]
    simp only [Serves, cursorAfter, and_assoc]

/-- Every page served was the answer to the request issued at its time. -/
theorem serves_index {E : Type} (s : Client E) (org : String) (roleID perPage : Int)
    (pages : List Page) :
    ∀ (t : Nat) (p : Int), Serves s org roleID perPage t p pages →
      ∀ (i : Nat) (pg : Page), pages[i]? = some pg →
        ∃ c : Int, s.ListTeamsAssignedToOrgRole (t + i) org roleID ⟨c, perPage⟩
          = (pg.1, some pg.2, none) := by
  induction pages with
  | nil => intro t p _ i pg h; simp at h
  | cons pg0 rest ih =>
    intro t p hs i pg h
    obtain ⟨h1, h2⟩ := hs
    cases i with
    | zero =>
      have : pg = pg0 := by simpa using h.symm
      subst this
      exact ⟨p, h1⟩
    | succ i =>
      obtain ⟨c, hc⟩ := ih (t + 1) pg0.2.NextPage h2 i pg (by simpa using h)
      refine ⟨c, ?_⟩
      have : t + (i + 1) = t + 1 + i := by omega
      rw [this]; exact hc

theorem teamRequests_pageEvents {E : Type} (org : String) (roleID perPage : Int)
    (pages : List Page) :
    ∀ p : Int, teamRequests (pageEvents org roleID perPage p pages : List (Event E)) =
      pageEvents org roleID perPage p pages := by
  induction pages with
  | nil => intro p; rfl
  | cons pg rest ih =>
    intro p
    have := ih pg.2.NextPage
    simp only [teamRequests] at this
    simp [teamRequests, pageEvents, Event.isListTeams, this]

theorem teamRequests_append {E : Type} (a b : List (Event E)) :
    teamRequests (a ++ b) = teamRequests a ++ teamRequests b := by
  simp [teamRequests]

theorem pageEvents_sizes {E : Type} (org : String) (roleID perPage : Int) (pages : List Page) :
    ∀ p : Int, (pageEvents org roleID perPage p pages : List (Event E)).map pageSize =
      pages.map (fun pg => pg.1.length) := by
  induction pages with
  | nil => intro p; rfl
  | cons pg rest ih => intro p; simp [pageEvents, pageSize, Event.teams, ih]

theorem allTeams_length (pages : List Page) :
    (allTeams pages).length = (pages.map (fun pg => pg.1.length)).sum := by
  induction pages with
  | nil => rfl
  | cons pg rest ih => simp [allTeams_cons, ih]

/-- The first request of a chain of page requests carries the starting
cursor. -/
theorem chain_head {E : Type} (org : String) (roleID perPage : Int) (init : List Page) (p : Int)
    (tl : List (Event E))
    (htl : tl = [] ∨ ∃ res : TeamsResult E,
      tl = [Event.listTeams org roleID ⟨cursorAfter p init, perPage⟩ res])
    (ev : Event E) (h : (pageEvents org roleID perPage p init ++ tl)[0]? = some ev) :
    ∃ res : TeamsResult E, ev = Event.listTeams org roleID ⟨p, perPage⟩ res := by
  cases init with
  | nil =>
    rcases htl with h0 | ⟨res, h0⟩
    · subst h0; simp [pageEvents] at h
    · subst h0
      simp only [pageEvents, cursorAfter, List.nil_append, List.getElem?_cons_zero,
        Option.some.injEq] at h
      exact ⟨res, h.symm⟩
  | cons pg rest =>
    simp only [pageEvents, List.cons_append, List.getElem?_cons_zero, Option.some.injEq] at h
    exact ⟨_, h.symm⟩

/-- Each request of a chain after the first carries the `NextPage` of the
response before it, which was a page with metadata and without error. -/
theorem chain_step {E : Type} (org : String) (roleID perPage : Int) (init : List Page) :
    ∀ (p : Int) (tl : List (Event E)),
      (tl = [] ∨ ∃ res : TeamsResult E,
        tl = [Event.listTeams org roleID ⟨cursorAfter p init, perPage⟩ res]) →
      ∀ (i : Nat) (ev ev2 : Event E),
        (pageEvents org roleID perPage p init ++ tl)[i]? = some ev →
        (pageEvents org roleID perPage p init ++ tl)[i + 1]? = some ev2 →
        ∃ (c : Int) (ts : List Team) (r : Response) (res2 : TeamsResult E),
          ev = Event.listTeams org roleID ⟨c, perPage⟩ (ts, some r, none) ∧
          ev2 = Event.listTeams org roleID ⟨r.NextPage, perPage⟩ res2 := by
  induction init with
  | nil =>
    intro p tl htl i ev ev2 _ h2
    exfalso
    rcases htl with h0 | ⟨res, h0⟩ <;> subst h0 <;> simp [pageEvents] at h2
  | cons pg rest ih =>
    intro p tl htl i ev ev2 h1 h2
    have htl2 : tl = [] ∨ ∃ res : TeamsResult E,
        tl = [Event.listTeams org roleID ⟨cursorAfter pg.2.NextPage rest, perPage⟩ res] := by
      simpa [cursorAfter] using htl
    cases i with
    | zero =>
      simp only [pageEvents, List.cons_append, List.getElem?_cons_zero, Option.some.injEq] at h1
      simp only [pageEvents, List.cons_append, zero_add, List.getElem?_cons_succ] at h2
      obtain ⟨res2, hres2⟩ := chain_head org roleID perPage rest pg.2.NextPage tl htl2 ev2 h2
      exact ⟨p, pg.1, pg.2, res2, h1.symm, hres2⟩
    | succ i =>
      simp only [pageEvents, List.cons_append, List.getElem?_cons_succ] at h1 h2
      exact ih pg.2.NextPage tl htl2 i ev ev2 h1 h2

/-- Every exchange of a chain is a team-listing request for the same
organization, role and page size. -/
theorem chain_mem {E : Type} (org : String) (roleID perPage : Int) (init : List Page) :
    ∀ (p : Int) (tl : List (Event E)),
      (tl = [] ∨ ∃ res : TeamsResult E,
        tl = [Event.listTeams org roleID ⟨cursorAfter p init, perPage⟩ res]) →
      ∀ ev ∈ pageEvents org roleID perPage p init ++ tl,
        ∃ (c : Int) (res : TeamsResult E), ev = Event.listTeams org roleID ⟨c, perPage⟩ res := by
  induction init with
  | nil =>
    intro p tl htl ev hev
    rcases htl with h0 | ⟨res, h0⟩
    · subst h0; simp [pageEvents] at hev
    · subst h0
      simp only [pageEvents, List.nil_append, List.mem_singleton] at hev
      exact ⟨_, res, hev⟩
  | cons pg rest ih =>
    intro p tl htl ev hev
    have htl2 : tl = [] ∨ ∃ res : TeamsResult E,
        tl = [Event.listTeams org roleID ⟨cursorAfter pg.2.NextPage rest, perPage⟩ res] := by
      simpa [cursorAfter] using htl
    simp only [pageEvents, List.cons_append, List.mem_cons] at hev
    rcases hev with h | h
    · exact ⟨p, _, h⟩
    · exact ih pg.2.NextPage tl htl2 ev h

/-! ## Runs of `ListSecurityManagerTeams` -/

theorem finalOutcome_ne_running {E : Type} (acc : List Team) (res : TeamsResult E) :
    finalOutcome acc res ≠ .running := by
  rcases res with ⟨ts, resp, err⟩
  cases err <;> cases resp <;> simp [finalOutcome]

theorem finalOutcome_error {E : Type} (acc : List Team) (res : TeamsResult E)
    (x : Option (List Team)) (y : Option Response) (err : GoError E)
    (h : finalOutcome acc res = .ret (x, y, some err)) : x = none ∧ y = none := by
  rcases res with ⟨ts, resp, e⟩
  cases e <;> cases resp <;> simp [finalOutcome] at h
  · exact ⟨h.1.symm, h.2.1.symm⟩
  · exact ⟨h.1.symm, h.2.1.symm⟩

theorem finalOutcome_success {E : Type} (acc : List Team) (res : TeamsResult E)
    (ts : List Team) (r : Response)
    (h : finalOutcome acc res = .ret (some ts, some r, none)) :
    ∃ tsl : List Team, res = (tsl, some r, none) ∧ ts = acc ++ tsl := by
  rcases res with ⟨tsl, resp, e⟩
  cases e <;> cases resp <;> simp [finalOutcome] at h
  obtain ⟨h1, h2⟩ := h
  subst h1 h2
  exact ⟨tsl, rfl, rfl⟩

/-- Every bounded run of `ListSecurityManagerTeams` is of one of three kinds:
the resolver returned an error, the resolver faulted, or the resolver
returned a role and the loop ran as `listTeamsLoop_run` describes. -/
theorem listSecurityManagerTeams_cases {E : Type} (fuel : Nat) (s : Client E) (org : String) :
    (∃ (x : Option CustomOrgRoles) (err : GoError E),
      (GetSecurityManagerRole s org []).1 = .ret (x, some err) ∧
      ListSecurityManagerTeams fuel s org =
        (.ret (none, none, some err), [Event.listRoles org (s.ListRoles 0 org)])) ∨
    ((GetSecurityManagerRole s org []).1 = .panic ∧
      ListSecurityManagerTeams fuel s org =
        (.panic, [Event.listRoles org (s.ListRoles 0 org)])) ∨
    (∃ (role : Option CustomOrgRoles) (init : List Page),
      (GetSecurityManagerRole s org []).1 = .ret (role, none) ∧
      (∀ pg ∈ init, pg.2.NextPage ≠ 0) ∧
      Serves s org (GetID role) 100 1 0 init ∧
      ((init.length = fuel ∧
          ListSecurityManagerTeams fuel s org =
            (.running, Event.listRoles org (s.ListRoles 0 org) ::
              (pageEvents org (GetID role) 100 0 init ++ []))) ∨
       (init.length < fuel ∧
          endsListing (s.ListTeamsAssignedToOrgRole (1 + init.length) org (GetID role)
            ⟨cursorAfter 0 init, 100⟩) = true ∧
          ListSecurityManagerTeams fuel s org =
            (finalOutcome (allTeams init)
                (s.ListTeamsAssignedToOrgRole (1 + init.length) org (GetID role)
                  ⟨cursorAfter 0 init, 100⟩),
              Event.listRoles org (s.ListRoles 0 org) ::
                (pageEvents org (GetID role) 100 0 init ++
                  [Event.listTeams org (GetID role) ⟨cursorAfter 0 init, 100⟩
                    (s.ListTeamsAssignedToOrgRole (1 + init.length) org (GetID role)
                      ⟨cursorAfter 0 init, 100⟩)]))))) := by
  rcases ho : (GetSecurityManagerRole s org []).1 with ⟨x, err⟩ | _ | _
  · cases err with
    | some err =>
      left
      exact ⟨x, err, rfl, listSecurityManagerTeams_of_failed fuel s org x err ho⟩
    | none =>
      right; right
      obtain ⟨init, hnz, hs, hcase⟩ := listTeamsLoop_run s org (GetID x) 100 fuel 0 []
        [Event.listRoles org (s.ListRoles 0 org)]
      refine ⟨x, init, rfl, hnz, by simpa using hs, ?_⟩
      rw [listSecurityManagerTeams_of_resolved fuel s org x ho]
      simp only [List.length_singleton, List.nil_append] at hcase
      rcases hcase with ⟨h1, h2⟩ | ⟨h1, h2, h3⟩
      · left; exact ⟨h1, by rw [h2]; simp⟩
      · right; exact ⟨h1, h2, by rw [h3]; simp⟩
  · right; left
    exact ⟨rfl, listSecurityManagerTeams_of_panic fuel s org ho⟩
  · exact absurd ho (getSecurityManagerRole_ne_running s org [])

/-- Against the endless listing the loop uses up every iteration it is given. -/
theorem listTeamsLoop_endless (org : String) (roleID : Int) :
    ∀ (fuel : Nat) (p : Int) (acc : List Team) (log : List (Event String)), 0 ≤ p →
      (listTeamsLoop endlessClient org roleID fuel ⟨p, 100⟩ acc log).1 = .running ∧
      (teamRequests (listTeamsLoop endlessClient org roleID fuel ⟨p, 100⟩ acc log).2).length =
        (teamRequests log).length + fuel := by
  intro fuel
  induction fuel with
  | zero => intro p acc log _; simp [listTeamsLoop]
  | succ fuel ih =>
    intro p acc log hp0
    have hres : endlessClient.ListTeamsAssignedToOrgRole log.length org roleID ⟨p, 100⟩ =
        ([], some ⟨p + 1, 200⟩, none) := rfl
    have hp : (⟨p + 1, 200⟩ : Response).NextPage ≠ 0 := by
      show p + 1 ≠ 0
      omega
    rw [listTeamsLoop_more endlessClient org roleID fuel ⟨p, 100⟩ acc log [] ⟨p + 1, 200⟩ hres hp]
    obtain ⟨h1, h2⟩ := ih (p + 1) (acc ++ [])
      (log ++ [Event.listTeams org roleID ⟨p, 100⟩ ([], some ⟨p + 1, 200⟩, none)]) (by omega)
    refine ⟨h1, ?_⟩
    rw [h2, teamRequests_append]
    simp [teamRequests, Event.isListTeams]
    omega

theorem teamRequests_listRoles_cons {E : Type} (org : String) (res : RolesResult E)
    (rest : List (Event E)) :
    teamRequests (Event.listRoles org res :: rest) = teamRequests rest := by
  simp [teamRequests, Event.isListTeams]

theorem teamRequests_listTeams_singleton {E : Type} (org : String) (roleID : Int)
    (opts : ListOptions) (res : TeamsResult E) :
    teamRequests [Event.listTeams org roleID opts res] = [Event.listTeams org roleID opts res] := by
  simp [teamRequests, Event.isListTeams]

/-! ## Claims about the paging loop -/

/-- C3: when role resolution succeeds and the collaborator answers the
successive page requests with `N = init.length + 1` successful pages, the
first `N - 1` with a non-zero `NextPage` and the last with `NextPage = 0`,
`ListSecurityManagerTeams` returns, given at least `N` iterations, without
error the teams of the `N` pages concatenated in response order together with
the last response's metadata, and issues exactly `N` team-listing requests
(after the one list-roles request). -/
theorem listSecurityManagerTeams_concatenates_pages {E : Type} (s : Client E) (org : String)
    (role : Option CustomOrgRoles) (init : List Page) (last : Page) (fuel : Nat)
    (hrole : (GetSecurityManagerRole s org []).1 = .ret (role, none))
    (hserved : Serves s org (GetID role) 100 1 0 (init ++ [last]))
    (hmore : ∀ pg ∈ init, pg.2.NextPage ≠ 0)
    (hlast : last.2.NextPage = 0)
    (hfuel : init.length + 1 ≤ fuel) :
    ListSecurityManagerTeams fuel s org =
      (.ret (some (allTeams (init ++ [last])), some last.2, none),
        Event.listRoles org (s.ListRoles 0 org) ::
          pageEvents org (GetID role) 100 0 (init ++ [last])) ∧
    (teamRequests (ListSecurityManagerTeams fuel s org).2).length = init.length + 1 := by
  obtain ⟨f, rfl⟩ : ∃ f, fuel = init.length + (f + 1) := ⟨fuel - init.length - 1, by omega⟩
  obtain ⟨h1, h2⟩ := (serves_append s org (GetID role) 100 init [last] 1 0).mp hserved
  have hrun : ListSecurityManagerTeams (init.length + (f + 1)) s org =
      (.ret (some (allTeams (init ++ [last])), some last.2, none),
        Event.listRoles org (s.ListRoles 0 org) ::
          pageEvents org (GetID role) 100 0 (init ++ [last])) := by
    rw [listSecurityManagerTeams_of_resolved _ s org role hrole,
      listTeamsLoop_advance s org (GetID role) 100 init 0 [] _ (f + 1) (by simpa using h1) hmore]
    have hlen : ([Event.listRoles org (s.ListRoles 0 org)] ++
        pageEvents org (GetID role) 100 0 init).length = 1 + init.length := by
      simp [pageEvents_length]; omega
    rw [listTeamsLoop_last s org (GetID role) f _ _ _ last.1 last.2
      (by rw [hlen]; exact h2.1) hlast]
    simp [allTeams_append, allTeams, pageEvents_append, pageEvents]
  refine ⟨hrun, ?_⟩
  rw [hrun]
  simp [teamRequests_listRoles_cons, teamRequests_pageEvents, pageEvents_length]

theorem listSecurityManagerTeams_concatenates_pages_witness :
    (GetSecurityManagerRole exampleClient "acme" []).1 = .ret (some smRole, none) ∧
    Serves exampleClient "acme" 2 100 1 0 ([([teamA], ⟨2, 200⟩)] ++ [([teamB], ⟨0, 200⟩)]) ∧
    ListSecurityManagerTeams 2 exampleClient "acme" =
      (.ret (some (allTeams ([([teamA], ⟨2, 200⟩)] ++ [([teamB], ⟨0, 200⟩)])), some ⟨0, 200⟩, none),
        Event.listRoles "acme" (exampleClient.ListRoles 0 "acme") ::
          pageEvents "acme" 2 100 0 ([([teamA], ⟨2, 200⟩)] ++ [([teamB], ⟨0, 200⟩)])) ∧
    (teamRequests (ListSecurityManagerTeams 2 exampleClient "acme").2).length = 2 :=
  ⟨by decide, ⟨rfl, rfl, trivial⟩,
    listSecurityManagerTeams_concatenates_pages exampleClient "acme" (some smRole)
      [([teamA], ⟨2, 200⟩)] ([teamB], ⟨0, 200⟩) 2 (by decide) ⟨rfl, rfl, trivial⟩
      (by intro pg hpg; simp at hpg; subst hpg; decide) rfl (by decide)⟩

/-- C4: when role resolution succeeds and, after any number of successful
pages with a non-zero `NextPage` (none, for the first page), a page request
fails with error `e`, `ListSecurityManagerTeams` returns exactly `e` with no
team list and no response metadata, whatever the failed response carried, and
the failing request is the last one it issues; and no run at all returns a
team list or metadata alongside an error. -/
theorem listSecurityManagerTeams_page_failure {E : Type} (s : Client E) (org : String)
    (role : Option CustomOrgRoles) (init : List Page) (ts : List Team)
    (resp : Option Response) (e : E) (fuel : Nat)
    (hrole : (GetSecurityManagerRole s org []).1 = .ret (role, none))
    (hserved : Serves s org (GetID role) 100 1 0 init)
    (hmore : ∀ pg ∈ init, pg.2.NextPage ≠ 0)
    (hfail : s.ListTeamsAssignedToOrgRole (1 + init.length) org (GetID role)
      ⟨cursorAfter 0 init, 100⟩ = (ts, resp, some e))
    (hfuel : init.length + 1 ≤ fuel) :
    ListSecurityManagerTeams fuel s org =
      (.ret (none, none, some (.collaborator e)),
        Event.listRoles org (s.ListRoles 0 org) ::
          (pageEvents org (GetID role) 100 0 init ++
            [Event.listTeams org (GetID role) ⟨cursorAfter 0 init, 100⟩ (ts, resp, some e)])) ∧
    (teamRequests (ListSecurityManagerTeams fuel s org).2).length = init.length + 1 ∧
    (∀ (n : Nat) (x : Option (List Team)) (y : Option Response) (err : GoError E),
      (ListSecurityManagerTeams n s org).1 = .ret (x, y, some err) → x = none ∧ y = none) := by
  obtain ⟨f, rfl⟩ : ∃ f, fuel = init.length + (f + 1) := ⟨fuel - init.length - 1, by omega⟩
  have hrun : ListSecurityManagerTeams (init.length + (f + 1)) s org =
      (.ret (none, none, some (.collaborator e)),
        Event.listRoles org (s.ListRoles 0 org) ::
          (pageEvents org (GetID role) 100 0 init ++
            [Event.listTeams org (GetID role) ⟨cursorAfter 0 init, 100⟩ (ts, resp, some e)])) := by
    rw [listSecurityManagerTeams_of_resolved _ s org role hrole,
      listTeamsLoop_advance s org (GetID role) 100 init 0 [] _ (f + 1)
        (by simpa using hserved) hmore]
    have hlen : ([Event.listRoles org (s.ListRoles 0 org)] ++
        pageEvents org (GetID role) 100 0 init).length = 1 + init.length := by
      simp [pageEvents_length]; omega
    rw [listTeamsLoop_err s org (GetID role) f _ _ _ ts resp e (by rw [hlen]; exact hfail)]
    simp
  refine ⟨hrun, ?_, ?_⟩
  · rw [hrun]
    simp [teamRequests_listRoles_cons, teamRequests_append, teamRequests_pageEvents,
      teamRequests_listTeams_singleton, pageEvents_length]
  · intro n x y err h
    rcases listSecurityManagerTeams_cases n s org with
      ⟨x2, err2, _, hl⟩ | ⟨_, hl⟩ | ⟨role2, init2, _, _, _, ⟨_, hl⟩ | ⟨_, _, hl⟩⟩
    · rw [hl] at h
      simp only [Outcome.ret.injEq, Prod.mk.injEq] at h
      exact ⟨h.1.symm, h.2.1.symm⟩
    · rw [hl] at h; simp at h
    · rw [hl] at h; simp at h
    · rw [hl] at h
      exact finalOutcome_error _ _ x y err h

theorem listSecurityManagerTeams_page_failure_witness :
    (GetSecurityManagerRole failingClient "acme" []).1 = .ret (some smRole, none) ∧
    Serves failingClient "acme" 2 100 1 0 [([teamA], ⟨2, 200⟩)] ∧
    failingClient.ListTeamsAssignedToOrgRole 2 "acme" 2 ⟨2, 100⟩ =
      ([teamB], some ⟨3, 502⟩, some "bad gateway") ∧
    ListSecurityManagerTeams 5 failingClient "acme" =
      (.ret (none, none, some (.collaborator "bad gateway")),
        Event.listRoles "acme" (failingClient.ListRoles 0 "acme") ::
          (pageEvents "acme" 2 100 0 [([teamA], ⟨2, 200⟩)] ++
            [Event.listTeams "acme" 2 ⟨2, 100⟩ ([teamB], some ⟨3, 502⟩, some "bad gateway")])) ∧
    (teamRequests (ListSecurityManagerTeams 5 failingClient "acme").2).length = 2 :=
  ⟨by decide, ⟨rfl, trivial⟩, rfl,
    (listSecurityManagerTeams_page_failure failingClient "acme" (some smRole)
      [([teamA], ⟨2, 200⟩)] [teamB] (some ⟨3, 502⟩) "bad gateway" 5 (by decide) ⟨rfl, trivial⟩
      (by intro pg hpg; simp at hpg; subst hpg; decide) rfl (by decide)).1,
    by decide⟩

/-- C7, as the code has it: for every successful run of
`ListSecurityManagerTeams` whose pages have the sizes `[100, ..., 100, k]`
with `k ≤ 100`, and `k ≥ 1` unless the page is the only one, the number of
team-listing requests issued equals `ceil(team_count / 100)` with a minimum
of 1, `team_count` being the number of teams returned. -/
theorem listSecurityManagerTeams_request_count {E : Type} (fuel : Nat) (s : Client E)
    (org : String) (ts : List Team) (resp : Response) (n k : Nat)
    (hrun : (ListSecurityManagerTeams fuel s org).1 = .ret (some ts, some resp, none))
    (hsizes : (teamRequests (ListSecurityManagerTeams fuel s org).2).map pageSize =
      List.replicate n 100 ++ [k])
    (hk : k ≤ 100) (hk0 : k = 0 → n = 0) :
    (teamRequests (ListSecurityManagerTeams fuel s org).2).length =
      max 1 ((ts.length + 99) / 100) := by
  rcases listSecurityManagerTeams_cases fuel s org with
    ⟨x2, err2, _, hl⟩ | ⟨_, hl⟩ | ⟨role, init, _, _, _, ⟨_, hl⟩ | ⟨_, _, hl⟩⟩
  · rw [hl] at hrun; simp at hrun
  · rw [hl] at hrun; simp at hrun
  · rw [hl] at hrun; simp at hrun
  · rw [hl] at hrun hsizes ⊢
    obtain ⟨tsl, hres, hts⟩ := finalOutcome_success _ _ ts resp hrun
    rw [hres] at hsizes ⊢
    simp only [teamRequests_listRoles_cons, teamRequests_append, teamRequests_pageEvents,
      teamRequests_listTeams_singleton, List.map_append, pageEvents_sizes, List.map_cons,
      List.map_nil] at hsizes
    simp only [teamRequests_listRoles_cons, teamRequests_append, teamRequests_pageEvents,
      teamRequests_listTeams_singleton, List.length_append, pageEvents_length,
      List.length_singleton]
    obtain ⟨hinit, hlast⟩ := List.append_inj' hsizes (by simp)
    have hn : init.length = n := by
      have := congrArg List.length hinit
      simpa using this
    have hk2 : tsl.length = k := by simpa [pageSize, Event.teams] using hlast
    have hsum : (allTeams init).length = n * 100 := by
      rw [allTeams_length, hinit]; simp
    have hlen : ts.length = n * 100 + k := by
      rw [hts, List.length_append, hsum, hk2]
    rw [hlen, hn]
    rcases Nat.eq_zero_or_pos k with h0 | h0
    · have := hk0 h0
      subst this; subst h0
      simp
    · omega

theorem listSecurityManagerTeams_request_count_witness :
    (ListSecurityManagerTeams 3 fullPageClient "acme").1 =
      .ret (some (List.replicate 100 teamA ++ [teamB]), some ⟨0, 200⟩, none) ∧
    (teamRequests (ListSecurityManagerTeams 3 fullPageClient "acme").2).map pageSize =
      List.replicate 1 100 ++ [1] ∧
    (teamRequests (ListSecurityManagerTeams 3 fullPageClient "acme").2).length =
      max 1 (((List.replicate 100 teamA ++ [teamB]).length + 99) / 100) :=
  ⟨by decide, by decide,
    listSecurityManagerTeams_request_count 3 fullPageClient "acme"
      (List.replicate 100 teamA ++ [teamB]) ⟨0, 200⟩ 1 1
      (by decide) (by decide) (by decide) (by decide)⟩

/-- C7 fails as stated: this run succeeds with two teams, fetched in two
team-listing requests because the collaborator put one team on each page,
while `ceil(2 / 100)` with a minimum of 1 is 1. -/
theorem listSecurityManagerTeams_request_count_counterexample :
    (ListSecurityManagerTeams 5 exampleClient "acme").1 =
      .ret (some [teamA, teamB], some ⟨0, 200⟩, none) ∧
    (teamRequests (ListSecurityManagerTeams 5 exampleClient "acme").2).length = 2 ∧
    max 1 (([teamA, teamB].length + 99) / 100) = 1 ∧
    (teamRequests (ListSecurityManagerTeams 5 exampleClient "acme").2).length ≠
      max 1 (([teamA, teamB].length + 99) / 100) := by
  decide

/-- Once the loop has ended, a further iteration changes nothing. -/
theorem listTeamsLoop_stable {E : Type} (s : Client E) (org : String) (roleID : Int) :
    ∀ (fuel : Nat) (options : ListOptions) (acc : List Team) (log : List (Event E)),
      (listTeamsLoop s org roleID fuel options acc log).1 ≠ .running →
      listTeamsLoop s org roleID (fuel + 1) options acc log =
        listTeamsLoop s org roleID fuel options acc log := by
  intro fuel
  induction fuel with
  | zero => intro options acc log h; simp [listTeamsLoop] at h
  | succ fuel ih =>
    intro options acc log h
    cases hend : endsListing (s.ListTeamsAssignedToOrgRole log.length org roleID options) with
    | true =>
      rw [listTeamsLoop_final s org roleID (fuel + 1) options acc log hend,
        listTeamsLoop_final s org roleID fuel options acc log hend]
    | false =>
      obtain ⟨ts, r, hres, hnz⟩ := not_endsListing _ hend
      rw [listTeamsLoop_more s org roleID fuel options acc log ts r hres hnz] at h
      rw [listTeamsLoop_more s org roleID (fuel + 1) options acc log ts r hres hnz,
        listTeamsLoop_more s org roleID fuel options acc log ts r hres hnz]
      exact ih _ _ _ h

theorem listTeamsLoop_stable_add {E : Type} (s : Client E) (org : String) (roleID : Int)
    (fuel : Nat) (options : ListOptions) (acc : List Team) (log : List (Event E))
    (h : (listTeamsLoop s org roleID fuel options acc log).1 ≠ .running) :
    ∀ d : Nat, listTeamsLoop s org roleID (fuel + d) options acc log =
      listTeamsLoop s org roleID fuel options acc log := by
  intro d
  induction d with
  | zero => rfl
  | succ d ih =>
    have h2 : (listTeamsLoop s org roleID (fuel + d) options acc log).1 ≠ .running := by
      rw [ih]; exact h
    have h3 := listTeamsLoop_stable s org roleID (fuel + d) options acc log h2
    rw [← ih, ← h3]
    rfl

/-- A run of `ListSecurityManagerTeams` that has stopped is the same run
under every larger number of iterations. -/
theorem listSecurityManagerTeams_stable {E : Type} (s : Client E) (org : String) (k fuel : Nat)
    (h : (ListSecurityManagerTeams k s org).1 ≠ .running) (hk : k ≤ fuel) :
    ListSecurityManagerTeams fuel s org = ListSecurityManagerTeams k s org := by
  obtain ⟨d, rfl⟩ : ∃ d, fuel = k + d := ⟨fuel - k, by omega⟩
  rcases ho : (GetSecurityManagerRole s org []).1 with ⟨x, err⟩ | _ | _
  · cases err with
    | some err =>
      rw [listSecurityManagerTeams_of_failed _ s org x err ho,
        listSecurityManagerTeams_of_failed _ s org x err ho]
    | none =>
      rw [listSecurityManagerTeams_of_resolved _ s org x ho] at h
      rw [listSecurityManagerTeams_of_resolved _ s org x ho,
        listSecurityManagerTeams_of_resolved _ s org x ho]
      exact listTeamsLoop_stable_add s org (GetID x) k _ _ _ h d
  · rw [listSecurityManagerTeams_of_panic _ s org ho, listSecurityManagerTeams_of_panic _ s org ho]
  · exact absurd ho (getSecurityManagerRole_ne_running s org [])

/-- A list split around one of its positions. -/
theorem split_at_index {α : Type} (l : List α) (i : Nat) (h : i < l.length) :
    l = l.take i ++ l.get ⟨i, h⟩ :: l.drop (i + 1) := by
  have h1 : l.drop i = l.get ⟨i, h⟩ :: l.drop (i + 1) := by
    simp
  rw [← h1, List.take_append_drop]

/-- C8, as the code has it: the loop has no bound of its own, and stops when
the collaborator ends it. If the response to the `k`-th page request the
lister sends (`k ≥ 1`; it is sent after `k - 1` pages with a non-zero
`NextPage`, and carries the cursor of the last of them) carries an error, no
metadata or `NextPage = 0`, then `ListSecurityManagerTeams` stops, by
returning or by faulting on a response with neither error nor metadata, after
at most `k` team-listing requests: given `k` iterations it is no longer
running, and more iterations change neither its result nor its requests. -/
theorem listSecurityManagerTeams_stops_when_ended {E : Type} (s : Client E) (org : String)
    (k fuel : Nat) (hk : 1 ≤ k)
    (hend : ∀ (role : Option CustomOrgRoles) (init : List Page),
      (GetSecurityManagerRole s org []).1 = .ret (role, none) →
      Serves s org (GetID role) 100 1 0 init →
      (∀ pg ∈ init, pg.2.NextPage ≠ 0) →
      init.length + 1 = k →
      endsListing (s.ListTeamsAssignedToOrgRole k org (GetID role)
        ⟨cursorAfter 0 init, 100⟩) = true)
    (hfuel : k ≤ fuel) :
    ListSecurityManagerTeams fuel s org = ListSecurityManagerTeams k s org ∧
    (ListSecurityManagerTeams fuel s org).1 ≠ .running ∧
    (teamRequests (ListSecurityManagerTeams fuel s org).2).length ≤ k := by
  have hatk : (ListSecurityManagerTeams k s org).1 ≠ .running ∧
      (teamRequests (ListSecurityManagerTeams k s org).2).length ≤ k := by
    rcases listSecurityManagerTeams_cases k s org with
      ⟨x2, err2, _, hl⟩ | ⟨_, hl⟩ | ⟨role, init, hrole, hnz, hs, hcase⟩
    · rw [hl]; simp [teamRequests, Event.isListTeams]
    · rw [hl]; simp [teamRequests, Event.isListTeams]
    · rcases hcase with ⟨hlen, _⟩ | ⟨hlen, _, hl⟩
      · exfalso
        have hidx : k - 1 < init.length := by omega
        have hsplit := split_at_index init (k - 1) hidx
        have hs2 := hs
        rw [hsplit, serves_append] at hs2
        obtain ⟨hpre, hpg, _⟩ := hs2
        have htake : (init.take (k - 1)).length = k - 1 := by
          rw [List.length_take]; omega
        have hk1 : 1 + (init.take (k - 1)).length = k := by omega
        rw [hk1] at hpg
        have h1 := hend role (init.take (k - 1)) hrole hpre
          (fun pg hpg => hnz pg (List.mem_of_mem_take hpg)) (by omega)
        rw [hpg] at h1
        have h2 : (init.get ⟨k - 1, hidx⟩).2.NextPage ≠ 0 := hnz _ (List.get_mem _ _ _)
        simp only [endsListing, decide_eq_true_eq] at h1
        exact h2 h1
      · rw [hl]
        refine ⟨finalOutcome_ne_running _ _, ?_⟩
        simp only [teamRequests_listRoles_cons, teamRequests_append, teamRequests_pageEvents,
          teamRequests_listTeams_singleton, List.length_append, pageEvents_length,
          List.length_singleton]
        omega
  have hsame := listSecurityManagerTeams_stable s org k fuel hatk.1 hfuel
  refine ⟨hsame, ?_, ?_⟩
  · rw [hsame]; exact hatk.1
  · rw [hsame]; exact hatk.2

theorem listSecurityManagerTeams_stops_when_ended_witness :
    (∀ (role : Option CustomOrgRoles) (init : List Page),
      (GetSecurityManagerRole exampleClient "acme" []).1 = .ret (role, none) →
      Serves exampleClient "acme" (GetID role) 100 1 0 init →
      (∀ pg ∈ init, pg.2.NextPage ≠ 0) →
      init.length + 1 = 2 →
      endsListing (exampleClient.ListTeamsAssignedToOrgRole 2 "acme" (GetID role)
        ⟨cursorAfter 0 init, 100⟩) = true) ∧
    ListSecurityManagerTeams 7 exampleClient "acme" =
      ListSecurityManagerTeams 2 exampleClient "acme" ∧
    (ListSecurityManagerTeams 7 exampleClient "acme").1 ≠ .running ∧
    (teamRequests (ListSecurityManagerTeams 7 exampleClient "acme").2).length ≤ 2 :=
  have hend : ∀ (role : Option CustomOrgRoles) (init : List Page),
      (GetSecurityManagerRole exampleClient "acme" []).1 = .ret (role, none) →
      Serves exampleClient "acme" (GetID role) 100 1 0 init →
      (∀ pg ∈ init, pg.2.NextPage ≠ 0) →
      init.length + 1 = 2 →
      endsListing (exampleClient.ListTeamsAssignedToOrgRole 2 "acme" (GetID role)
        ⟨cursorAfter 0 init, 100⟩) = true := by
    intro role init _ _ hnz hlen
    match init, hnz, hlen with
    | [pg], hnz, _ =>
      have h : pg.2.NextPage ≠ 0 := hnz pg (List.mem_singleton.mpr rfl)
      simp [exampleClient, cursorAfter, endsListing, h]
  ⟨hend, listSecurityManagerTeams_stops_when_ended exampleClient "acme" 2 7 (by decide) hend
    (by decide)⟩

/-- C8 fails as stated: against a collaborator whose every page announces a
further page, `ListSecurityManagerTeams` is still running after any number of
iterations, having issued as many team-listing requests as it was given
iterations. -/
theorem listSecurityManagerTeams_unbounded_counterexample :
    (∀ fuel : Nat, (ListSecurityManagerTeams fuel endlessClient "acme").1 = .running) ∧
    (∀ fuel : Nat,
      (teamRequests (ListSecurityManagerTeams fuel endlessClient "acme").2).length = fuel) := by
  have hrole : (GetSecurityManagerRole endlessClient "acme" []).1 = .ret (some smRole, none) := by
    decide
  constructor
  · intro fuel
    rw [listSecurityManagerTeams_of_resolved fuel endlessClient "acme" (some smRole) hrole]
    exact (listTeamsLoop_endless "acme" _ fuel 0 [] _ (le_refl 0)).1
  · intro fuel
    rw [listSecurityManagerTeams_of_resolved fuel endlessClient "acme" (some smRole) hrole]
    rw [(listTeamsLoop_endless "acme" _ fuel 0 [] _ (le_refl 0)).2]
    simp [teamRequests, Event.isListTeams]

/-- C9: in every run of `ListSecurityManagerTeams`, the first request is the
one list-roles request for `org`, and every later request is a team-listing
request carrying `org`, the identifier of the role the resolver returned and
page size 100; the first of them carries `Page = 0`, and each later one
carries as `Page` the `NextPage` of the response before it. -/
theorem listSecurityManagerTeams_requests {E : Type} (fuel : Nat) (s : Client E) (org : String) :
    ∃ rest : List (Event E),
      (ListSecurityManagerTeams fuel s org).2 =
        Event.listRoles org (s.ListRoles 0 org) :: rest ∧
      (∀ ev ∈ rest, ∃ (role : Option CustomOrgRoles) (page : Int) (res : TeamsResult E),
        (GetSecurityManagerRole s org []).1 = .ret (role, none) ∧
        ev = Event.listTeams org (GetID role) ⟨page, 100⟩ res) ∧
      (∀ ev : Event E, rest[0]? = some ev →
        ∃ (roleID : Int) (res : TeamsResult E), ev = Event.listTeams org roleID ⟨0, 100⟩ res) ∧
      (∀ (i : Nat) (ev ev2 : Event E), rest[i]? = some ev → rest[i + 1]? = some ev2 →
        ∃ (roleID page : Int) (ts : List Team) (r : Response) (res2 : TeamsResult E),
          ev = Event.listTeams org roleID ⟨page, 100⟩ (ts, some r, none) ∧
          ev2 = Event.listTeams org roleID ⟨r.NextPage, 100⟩ res2) := by
  rcases listSecurityManagerTeams_cases fuel s org with
    ⟨x2, err2, _, hl⟩ | ⟨_, hl⟩ | ⟨role, init, hrole, _, _, hcase⟩
  · exact ⟨[], by rw [hl], by simp, by simp, by simp⟩
  · exact ⟨[], by rw [hl], by simp, by simp, by simp⟩
  · have key : ∀ tl : List (Event E),
        (tl = [] ∨ ∃ res : TeamsResult E,
          tl = [Event.listTeams org (GetID role) ⟨cursorAfter 0 init, 100⟩ res]) →
        (∀ ev ∈ pageEvents org (GetID role) 100 0 init ++ tl,
          ∃ (role : Option CustomOrgRoles) (page : Int) (res : TeamsResult E),
            (GetSecurityManagerRole s org []).1 = .ret (role, none) ∧
            ev = Event.listTeams org (GetID role) ⟨page, 100⟩ res) ∧
        (∀ ev : Event E, (pageEvents org (GetID role) 100 0 init ++ tl)[0]? = some ev →
          ∃ (roleID : Int) (res : TeamsResult E),
            ev = Event.listTeams org roleID ⟨0, 100⟩ res) ∧
        (∀ (i : Nat) (ev ev2 : Event E),
          (pageEvents org (GetID role) 100 0 init ++ tl)[i]? = some ev →
          (pageEvents org (GetID role) 100 0 init ++ tl)[i + 1]? = some ev2 →
          ∃ (roleID page : Int) (ts : List Team) (r : Response) (res2 : TeamsResult E),
            ev = Event.listTeams org roleID ⟨page, 100⟩ (ts, some r, none) ∧
            ev2 = Event.listTeams org roleID ⟨r.NextPage, 100⟩ res2) := by
      intro tl htl
      refine ⟨?_, ?_, ?_⟩
      · intro ev hev
        obtain ⟨c, res, h⟩ := chain_mem org (GetID role) 100 init 0 tl htl ev hev
        exact ⟨role, c, res, hrole, h⟩
      · intro ev hev
        obtain ⟨res, h⟩ := chain_head org (GetID role) 100 init 0 tl htl ev hev
        exact ⟨GetID role, res, h⟩
      · intro i ev ev2 h1 h2
        obtain ⟨c, ts, r, res2, h3, h4⟩ :=
          chain_step org (GetID role) 100 init 0 tl htl i ev ev2 h1 h2
        exact ⟨GetID role, c, ts, r, res2, h3, h4⟩
    rcases hcase with ⟨_, hl⟩ | ⟨_, _, hl⟩
    · exact ⟨_, by rw [hl], key [] (Or.inl rfl)⟩
    · exact ⟨_, by rw [hl], key _ (Or.inr ⟨_, rfl⟩)⟩

end Github
